import Mathlib

/-!
Verification of the slurm-usage-report accounting pipeline.

The definitions below are a shallow embedding of the Python/polars code in
`src/app/main.py`, `src/app/usage-report.py`, `src/main.py`, `src/app/utils.py`
and `src/app/daily_eff.py`.  Cells of a data frame are modelled as `Option`
values (`none` is a polars null), 64-bit integer columns as `Int`, float
columns as a rational-valued model `PFloat` that carries the IEEE special
values `inf`, `-inf` and `nan`, and string columns as `Option String`.
-/

namespace SlurmReport

/-! ### Generic character and digit helpers -/

/-- Decimal value of a digit character, as produced by casting a captured
digit string to `pl.Int64`. -/
def digitVal (c : Char) : Nat := c.toNat - 48

/-- Decimal value of a list of digit characters. -/
def digitsVal (l : List Char) : Nat := l.foldl (fun a c => 10 * a + digitVal c) 0

/-- Decimal value of a digit string. -/
def strVal (s : String) : Nat := digitsVal s.data

/-- Test that the string is a nonempty run of ASCII digits (regex `\d+`
matched against the whole string). -/
def isDigitStr (s : String) : Bool := !s.data.isEmpty && s.data.all Char.isDigit

/-! ### Hierarchy classifier

Embedding of `add_slurm_jobinfo_type_columns` (`src/app/main.py` lines 40-74,
identical in `src/app/usage-report.py` and `src/main.py`).  The code runs
`JobID.str.extract_groups(r"^(?<JobRoot>\d+)(?<_JobSuffix>\..+)?")` and then
classifies on the suffix with a `when/then/otherwise` chain. -/

/-- Result of `extract_groups(r"^(?<JobRoot>\d+)(?<_JobSuffix>\..+)?")`:
the pair `(JobRoot, _JobSuffix)`.  If the regex does not match at all (no
leading digit) both groups are null; if only the optional suffix group
fails to match (rest does not start with `'.'` followed by at least one
character) the suffix is null. -/
def jobRootSuffix (s : String) : Option String × Option String :=
  let ds := s.data.takeWhile Char.isDigit
  if ds.isEmpty then (none, none)
  else
    match s.data.dropWhile Char.isDigit with
    | [] => (some (String.mk ds), none)
    | c :: tail =>
      if c = '.' ∧ tail ≠ [] then (some (String.mk ds), some (String.mk (c :: tail)))
      else (some (String.mk ds), none)

/-- Regex `^\.\d+$` applied to the suffix (the `step` test). -/
def isStepSuffix (t : String) : Bool :=
  match t.data with
  | '.' :: rest => !rest.isEmpty && rest.all Char.isDigit
  | _ => false

/-- The `when/then/otherwise` chain assigning `JobInfoType` from the
`_JobSuffix` column. -/
def jobInfoTypeOf (sfx : Option String) : String :=
  match sfx with
  | none => "allocation"
  | some t =>
    if t = ".batch" then "batch"
    else if t = ".extern" then "extern"
    else if isStepSuffix t then "step"
    else "unknown"

/-- The `JobInfoType` column produced for a given `JobID`. -/
def jobKind (s : String) : String := jobInfoTypeOf (jobRootSuffix s).2

/-- The `JobRoot` column produced for a given `JobID`. -/
def jobParent (s : String) : Option String := (jobRootSuffix s).1

/-- Whether a `JobID` matches the full pattern `^(\d+)(\..+)?$`, i.e. the
regex consumes the entire identifier. -/
def matchesRootSuffix (s : String) : Bool :=
  let ds := s.data.takeWhile Char.isDigit
  !ds.isEmpty &&
    (match s.data.dropWhile Char.isDigit with
     | [] => true
     | c :: tail => c = '.' && !tail.isEmpty)

/-- Retention: `add_slurm_jobinfo_type_columns` is a `with_columns`: it maps every row
to the row extended with `JobRoot` and `JobInfoType` and never drops a row. -/
def addJobCols (rows : List String) : List (String × Option String × String) :=
  rows.map fun j => (j, jobParent j, jobKind j)

/-! ### Size parser

Embedding of `add_units_kmg` / `convert_kmg_col` (`src/app/main.py` lines
78-100).  `add_units_kmg` runs the unanchored search
`extract_groups(r"(?<c>\d+)(?<c_unit>[KMGT])")`; the variant in
`src/main.py` lines 72-94 uses the case-insensitive pattern
`r"(?i)(?<c>\d+)(?<c_unit>[kmgt])"`.  `convert_kmg_col` multiplies by a
binary multiplier for units `"K"`, `"M"`, `"G"` and yields null otherwise. -/

/-- Leftmost match of the pattern `\d+[<units>]` in a character list: at each
start position take the maximal digit run and test whether the following
character is one of `units`; on failure advance the start by one character. -/
def kmgFindAux (units : List Char) : List Char → Option (List Char × Char)
  | [] => none
  | c :: rest =>
    if c.isDigit then
      match (c :: rest).dropWhile Char.isDigit with
      | u :: _ =>
        if u ∈ units then some ((c :: rest).takeWhile Char.isDigit, u)
        else kmgFindAux units rest
      | [] => kmgFindAux units rest
    else kmgFindAux units rest

/-- Unit characters of the uppercase-only pattern `[KMGT]` in
`src/app/main.py`. -/
def appUnits : List Char := ['K', 'M', 'G', 'T']

/-- Unit characters matched by the case-insensitive pattern `(?i)[kmgt]` in
`src/main.py`. -/
def ciUnits : List Char := ['K', 'M', 'G', 'T', 'k', 'm', 'g', 't']

/-- Embedding of `add_units_kmg` (`src/app/main.py`): the captured digit string and unit
character, or null on no match / null input. -/
def add_units_kmg (s : Option String) : Option (String × Char) :=
  s.bind fun t => (kmgFindAux appUnits t.data).map fun p => (String.mk p.1, p.2)

/-- Embedding of `add_units_kmg` (`src/main.py`, case-insensitive pattern; the captured
unit keeps its original case). -/
def add_units_kmg_ci (s : Option String) : Option (String × Char) :=
  s.bind fun t => (kmgFindAux ciUnits t.data).map fun p => (String.mk p.1, p.2)

/-- Embedding of `convert_kmg_col`: null stays null, unit `K`/`M`/`G` multiplies the
captured integer by `1024` / `1024^2` / `1024^3`, any other unit (including
`T` and all lowercase units) falls to `otherwise(None)`. -/
def convert_kmg_col (g : Option (String × Char)) : Option Int :=
  match g with
  | none => none
  | some (ds, u) =>
    if u = 'K' then some ((strVal ds : Int) * 1024)
    else if u = 'M' then some ((strVal ds : Int) * 1024 ^ 2)
    else if u = 'G' then some ((strVal ds : Int) * 1024 ^ 3)
    else none

/-- The size parser of `src/app/main.py`: `add_units_kmg` then
`convert_kmg_col` applied to one cell. -/
def parseSizeBytes (s : Option String) : Option Int := convert_kmg_col (add_units_kmg s)

/-- The size parser of `src/main.py` (case-insensitive extraction, same
conversion). -/
def parseSizeBytesCI (s : Option String) : Option Int := convert_kmg_col (add_units_kmg_ci s)

/-! ### Duration parser

Embedding of `parse_total_cpu_col`.  The `src/app/main.py` version (lines
169-218) classifies `TotalCPU` with the anchored regexes
`^\d+-\d+:\d+:\d+$`, `^\d+:\d+:\d+$` and `^\d+:\d+\.\d+$` and computes
`days*86400 + hours*3600 + minutes*60 + seconds` from the captured
components, yielding null for any other input (the `otherwise(None)`
branches of both steps).  The `src/app/usage-report.py` version (lines
184-232) uses the same three shapes but its `otherwise` branch builds a
struct of literal zeros, so every unrecognized input (and a null cell,
whose `str.contains` tests are null and therefore falsy) produces
`TotalCPU_seconds = 0` instead of null. -/

/-- One step of the splitter: prepend character `c` to the first segment,
or start a new empty segment when `c` is the separator. -/
def consSplit (sep c : Char) (r : List (List Char)) : List (List Char) :=
  match r with
  | [] => [[]]
  | h :: t => if c = sep then [] :: h :: t else (c :: h) :: t

/-- Split a character list at every occurrence of `sep`, keeping empty
segments. -/
def splitOnChar (sep : Char) : List Char → List (List Char)
  | [] => [[]]
  | c :: rest => consSplit sep c (splitOnChar sep rest)

/-- Test for `\d+` on a character list: nonempty and all decimal digits. -/
def digitRunL (l : List Char) : Bool := !l.isEmpty && l.all Char.isDigit

/-- Components captured by `^(?<days>\d+)-(?<hours>\d+):(?<minutes>\d+):(?<seconds>\d+)$`. -/
def dhmsOf (s : String) : Option (Nat × Nat × Nat × Nat) :=
  match splitOnChar '-' s.data with
  | [d, rest] =>
    if digitRunL d then
      match splitOnChar ':' rest with
      | [h, m, sec] =>
        if digitRunL h && digitRunL m && digitRunL sec then
          some (digitsVal d, digitsVal h, digitsVal m, digitsVal sec)
        else none
      | _ => none
    else none
  | _ => none

/-- Components captured by `^(?<hours>\d+):(?<minutes>\d+):(?<seconds>\d+)$`. -/
def hmsOf (s : String) : Option (Nat × Nat × Nat) :=
  match splitOnChar ':' s.data with
  | [h, m, sec] =>
    if digitRunL h && digitRunL m && digitRunL sec then
      some (digitsVal h, digitsVal m, digitsVal sec)
    else none
  | _ => none

/-- Components captured from `^\d+:\d+\.\d+$` by
`extract_groups(r"(?<minutes>\d+):(?<seconds>\d+)")`: the fractional part
is dropped, i.e. the seconds are truncated. -/
def msFracOf (s : String) : Option (Nat × Nat) :=
  match splitOnChar ':' s.data with
  | [m, x] =>
    match splitOnChar '.' x with
    | [sec, frac] =>
      if digitRunL m && digitRunL sec && digitRunL frac then
        some (digitsVal m, digitsVal sec)
      else none
    | _ => none
  | _ => none

/-- Embedding of `parse_total_cpu_col` of `src/app/main.py`: the `TotalCPU_seconds`
cell computed from one `TotalCPU` cell; unrecognized input is null. -/
def parseDurationMain (s : Option String) : Option Int :=
  match s with
  | none => none
  | some t =>
    match dhmsOf t with
    | some (d, h, m, sec) =>
      some ((d : Int) * 86400 + (h : Int) * 3600 + (m : Int) * 60 + (sec : Int))
    | none =>
      match hmsOf t with
      | some (h, m, sec) => some ((h : Int) * 3600 + (m : Int) * 60 + (sec : Int))
      | none =>
        match msFracOf t with
        | some (m, sec) => some ((m : Int) * 60 + (sec : Int))
        | none => none

/-- Embedding of `parse_total_cpu_col` of `src/app/usage-report.py`: same recognized
shapes, but the `otherwise` branch is a struct of literal zeros, so the
result is total and an unrecognized or null `TotalCPU` gives `0`. -/
def parseTotalCpuUR (s : Option String) : Int :=
  match s with
  | none => 0
  | some t =>
    match dhmsOf t with
    | some (d, h, m, sec) =>
      (d : Int) * 86400 + (h : Int) * 3600 + (m : Int) * 60 + (sec : Int)
    | none =>
      match hmsOf t with
      | some (h, m, sec) => (h : Int) * 3600 + (m : Int) * 60 + (sec : Int)
      | none =>
        match msFracOf t with
        | some (m, sec) => (m : Int) * 60 + (sec : Int)
        | none => 0

/-! ### Float model and the efficiency calculator

Embedding of the efficiency step of `generic_report` (`src/app/main.py`
lines 243-259, identical in `src/app/usage-report.py` lines 257-273).
`MaxRSS`, `ReqMem`, `TotalCPU_seconds`, `ElapsedRaw` and `AllocCPUS` are
nullable `Int64` columns at this point; `truediv` casts them to `Float64`
and divides following IEEE 754, which is what the code relies on when it
applies `.fill_nan(0)` to the CPU quotient. -/

/-- Model of a polars `Float64` value: a rational for the finite values
plus the IEEE special values produced by division by zero. -/
inductive PFloat where
  | val : ℚ → PFloat
  | inf : PFloat
  | ninf : PFloat
  | nan : PFloat
deriving DecidableEq

/-- Embedding of `truediv` of two nullable `Int64` cells: null propagates; division by
zero gives `inf`/`-inf` for a nonzero numerator and `NaN` for `0/0`. -/
def intTrueDiv (a b : Option Int) : Option PFloat :=
  match a, b with
  | some x, some y =>
    if y ≠ 0 then some (PFloat.val ((x : ℚ) / (y : ℚ)))
    else if x > 0 then some PFloat.inf
    else if x < 0 then some PFloat.ninf
    else some PFloat.nan
  | _, _ => none

/-- Embedding of `.mul(100)`: multiplication by the positive literal 100; the special
values keep their class and null propagates. -/
def pfMul100 (x : Option PFloat) : Option PFloat :=
  match x with
  | some (PFloat.val q) => some (PFloat.val (100 * q))
  | some PFloat.inf => some PFloat.inf
  | some PFloat.ninf => some PFloat.ninf
  | some PFloat.nan => some PFloat.nan
  | none => none

/-- Embedding of `.fill_nan(0)`: NaN becomes `0.0`; null and the infinities are kept. -/
def fillNanZero (x : Option PFloat) : Option PFloat :=
  match x with
  | some PFloat.nan => some (PFloat.val 0)
  | other => other

/-- Product `ElapsedRaw * AllocCPUS` on nullable `Int64` cells. -/
def intMulOpt (a b : Option Int) : Option Int :=
  match a, b with
  | some x, some y => some (x * y)
  | _, _ => none

/-- Column `MemEfficiencyPercent`: `MaxRSS.truediv(ReqMem)` then `.mul(100)`
(`src/app/main.py` lines 243-248). -/
def memEfficiencyPercent (maxRSS reqMem : Option Int) : Option PFloat :=
  pfMul100 (intTrueDiv maxRSS reqMem)

/-- Column `CPUEfficiencyPercent`:
`TotalCPU_seconds.truediv(ElapsedRaw * AllocCPUS).fill_nan(0).mul(100)`
(`src/app/main.py` lines 252-259). -/
def cpuEfficiencyPercent (totalCPUSeconds elapsedRaw allocCPUS : Option Int) :
    Option PFloat :=
  pfMul100 (fillNanZero (intTrueDiv totalCPUSeconds (intMulOpt elapsedRaw allocCPUS)))

/-! ### Daily-overlap calculator

Embedding of `add_daily_duration` (`src/app/utils.py` lines 229-306) for
one row.  Timestamps are modelled as integer seconds relative to the
the target-day midnight (`day_start`), so the target date itself is day
offset `0`, `day_end` is `86400`, and the `.dt.date()` of a timestamp is
its floor-division by 86400. -/

/-- Calendar-date offset of a timestamp from the target date. -/
def dayOf (t : Int) : Int := Int.fdiv t 86400

/-- The `when/then/otherwise` chain of `add_daily_duration`, in hours:
same-day, started-before/ended-on-day, started-on-day/ended-after,
spanning, otherwise `0.0`. -/
def dailyDurationHours (start endT : Int) : ℚ :=
  if dayOf start = 0 ∧ dayOf endT = 0 then ((endT - start : Int) : ℚ) / 3600
  else if start < 0 ∧ dayOf endT = 0 then ((endT : Int) : ℚ) / 3600
  else if dayOf start = 0 ∧ endT ≥ 86400 then ((86400 - start : Int) : ℚ) / 3600
  else if start < 0 ∧ endT ≥ 86400 then 24
  else 0

/-- Seconds offset of the wall-clock time `h:m:s` on the day
`dayOffset` days after the target date, relative to the target
midnight. -/
def tsec (dayOffset : Int) (h m s : Nat) : Int :=
  86400 * dayOffset + 3600 * (h : Int) + 60 * (m : Int) + (s : Int)

/-! ### Allocation aggregator

Embedding of `aggregate_per_alloc` (`src/app/main.py` lines 111-125) /
`smart_aggregate` (`src/main.py` lines 105-143) with the default
type-driven reducers: `Int64`/`Float64` columns reduce by `.max()` (nulls
skipped, null when the whole group is null), `String` columns by
`.drop_nulls().first()` (first non-null in input order, null when the
whole group is null).  `group_by` yields one group per distinct key; the
rows inside a group keep their input order, and we enumerate the groups in
first-appearance order (polars does not guarantee any group order; claim
C9 treats that nondeterminism explicitly). -/

/-- First-appearance deduplication: the distinct values of the key column
in order of first appearance, skipping values already `seen`. -/
def dedupFirstAux {K : Type} [DecidableEq K] : List K → List K → List K
  | _, [] => []
  | seen, k :: rest =>
    if k ∈ seen then dedupFirstAux seen rest
    else k :: dedupFirstAux (k :: seen) rest

/-- Distinct keys of a column, in first-appearance order. -/
def dedupFirst {K : Type} [DecidableEq K] (l : List K) : List K := dedupFirstAux [] l

/-- Reducer `.max()` of an `Int64` column over one group: nulls are skipped, all
null gives null. -/
def aggIntMax (cells : List (Option Int)) : Option Int := (cells.filterMap id).max?

/-- Reducer `.drop_nulls().first()` of a `String` column over one group: first
non-null in input order, null (polars `first` of an empty series) when
all values are null. -/
def aggStrFirst (cells : List (Option String)) : Option String := cells.findSome? id

/-- A canonical record restricted to the grouping key, one numeric column
(`ReqMem` in parsed bytes) and one text column (`Account`); the other
columns of the frame aggregate with the same two reducers. -/
structure SRow where
  jobRoot : Option String
  reqMem : Option Int
  account : Option String
deriving DecidableEq

/-- The group of rows for key `k`, in input order. -/
def rowsFor (rows : List SRow) (k : Option String) : List SRow :=
  rows.filter fun r => r.jobRoot = k

/-- Embedding of `aggregate_per_alloc`: one output row per distinct `JobRoot`, numeric
columns by max, text columns by first non-null. -/
def aggregate_per_alloc (rows : List SRow) :
    List (Option String × Option Int × Option String) :=
  (dedupFirst (rows.map SRow.jobRoot)).map fun k =>
    (k, aggIntMax ((rowsFor rows k).map SRow.reqMem),
      aggStrFirst ((rowsFor rows k).map SRow.account))

/-- The two-row group of the documented scenario: an allocation row whose
requested memory parses from `"8G"` and a step row with null requested
memory, under the same parent key. -/
def sampleRows8G : List SRow :=
  [⟨some "7", parseSizeBytes (some "8G"), some "acct"⟩, ⟨some "7", none, none⟩]

/-- The same two rows in the opposite order. -/
def sampleRows8GRev : List SRow :=
  [⟨some "7", none, none⟩, ⟨some "7", parseSizeBytes (some "8G"), some "acct"⟩]

/-! ### Full pipeline and daily metrics

Embedding of `compute_daily_metrics` (`src/app/daily_eff.py` lines
34-166): `generic_report` (imported there from `usage_report`, i.e. the
`src/app/usage-report.py` variant), then `add_daily_duration`, the
`daily_duration_hours > 0` filter, wait-time columns, the per-QOS and
global `group_by` aggregations, and the final dictionary merge in which
the reserved `"global"` entry is written after the per-QOS entries.
Timestamp string columns (`Start`, `End`, `Submit`) are modelled by the
seconds their ISO text encodes, relative to the target midnight; as
`String` columns they aggregate by first non-null. -/

/-- Reducer `.drop_nulls().first()` for a column of any type. -/
def aggFirst {α : Type} (cells : List (Option α)) : Option α := cells.findSome? id

/-- A raw sacct row restricted to the columns the daily pipeline uses. -/
structure RawRow where
  jobID : Option String
  maxRSS : Option String
  reqMem : Option String
  totalCPU : Option String
  elapsedRaw : Option Int
  allocCPUS : Option Int
  qos : Option String
  account : Option String
  startTs : Option Int
  endTs : Option Int
  submitTs : Option Int
deriving DecidableEq

/-- A row after `add_slurm_jobinfo_type_columns`, `add_units_kmg` and
`convert_kmg_col`: classification columns added, size columns in bytes. -/
structure CRow where
  jobRoot : Option String
  jobInfoTypeC : Option String
  maxRSSB : Option Int
  reqMemB : Option Int
  totalCPU : Option String
  elapsedRaw : Option Int
  allocCPUS : Option Int
  qos : Option String
  account : Option String
  startTs : Option Int
  endTs : Option Int
  submitTs : Option Int
deriving DecidableEq

/-- Classification and size parsing of one row (a null `JobID` yields null
groups, so the null-suffix branch classifies it `"allocation"`). -/
def toCRow (r : RawRow) : CRow :=
  { jobRoot := r.jobID.bind fun j => (jobRootSuffix j).1
    jobInfoTypeC := some (jobInfoTypeOf (r.jobID.bind fun j => (jobRootSuffix j).2))
    maxRSSB := parseSizeBytes r.maxRSS
    reqMemB := parseSizeBytes r.reqMem
    totalCPU := r.totalCPU
    elapsedRaw := r.elapsedRaw
    allocCPUS := r.allocCPUS
    qos := r.qos
    account := r.account
    startTs := r.startTs
    endTs := r.endTs
    submitTs := r.submitTs }

/-- An Allocation Record with the efficiency annotations. -/
structure AllocRec where
  jobRoot : Option String
  jobInfoTypeA : Option String
  maxRSS : Option Int
  reqMem : Option Int
  totalCPU : Option String
  elapsedRaw : Option Int
  allocCPUS : Option Int
  qos : Option String
  account : Option String
  startTs : Option Int
  endTs : Option Int
  submitTs : Option Int
  totalCPUSeconds : Option Int
  memEffPct : Option PFloat
  cpuEffPct : Option PFloat
deriving DecidableEq

/-- Embedding of `generic_report` of `src/app/usage-report.py`: classify, parse sizes,
aggregate per allocation (numeric max, text first non-null), parse
`TotalCPU` (the UR variant is total and never null), then compute the two
efficiency percentages. -/
def generic_report (rows : List RawRow) : List AllocRec :=
  let crows := rows.map toCRow
  (dedupFirst (crows.map CRow.jobRoot)).map fun k =>
    let g := crows.filter fun r => r.jobRoot = k
    let tc := aggFirst (g.map CRow.totalCPU)
    let mr := aggIntMax (g.map CRow.maxRSSB)
    let rm := aggIntMax (g.map CRow.reqMemB)
    let er := aggIntMax (g.map CRow.elapsedRaw)
    let ac := aggIntMax (g.map CRow.allocCPUS)
    let tcs := some (parseTotalCpuUR tc)
    { jobRoot := k
      jobInfoTypeA := aggFirst (g.map CRow.jobInfoTypeC)
      maxRSS := mr
      reqMem := rm
      totalCPU := tc
      elapsedRaw := er
      allocCPUS := ac
      qos := aggFirst (g.map CRow.qos)
      account := aggFirst (g.map CRow.account)
      startTs := aggFirst (g.map CRow.startTs)
      endTs := aggFirst (g.map CRow.endTs)
      submitTs := aggFirst (g.map CRow.submitTs)
      totalCPUSeconds := tcs
      memEffPct := memEfficiencyPercent mr rm
      cpuEffPct := cpuEfficiencyPercent tcs er ac }

/-- Embedding of `add_daily_duration` on nullable timestamps: every `when` condition is
null (falsy) on a null timestamp, so the `otherwise(0.0)` branch fires. -/
def dailyDurationOpt (start endT : Option Int) : ℚ :=
  match start, endT with
  | some s, some e => dailyDurationHours s e
  | _, _ => 0

/-- Modelled from the spec: `add_wait_time_cols` is imported from `utils`
by `daily_eff.py` but is absent from `src/app/utils.py` in this
repository; the spec (§2) describes the wait time as the duration between
the submission of a job and the start of its execution. -/
def waitTimeSeconds (r : AllocRec) : Option Int :=
  match r.startTs, r.submitTs with
  | some s, some b => some (s - b)
  | _, _ => none

/-- polars `.median()` of the non-null values: midpoint of the sorted
values, averaging the two middle values for an even count; null on an
empty series. -/
def medianOf (l : List Int) : Option ℚ :=
  let s := l.mergeSort fun a b => decide (a ≤ b)
  if s.length = 0 then none
  else if s.length % 2 = 1 then some ((s.getD (s.length / 2) 0 : Int) : ℚ)
  else some (((s.getD (s.length / 2 - 1) 0 + s.getD (s.length / 2) 0 : Int) : ℚ) / 2)

/-- Summary Record of one group: the nine aggregated statistics computed by
`compute_daily_metrics` for a QOS group (or for the global group). -/
structure QStats where
  cpuSeconds : Int
  cpuHours : ℚ
  cpuPct : ℚ
  gbSeconds : ℚ
  ramPct : ℚ
  waitMean : Option ℚ
  waitMedian : Option ℚ
  waitMin : Option Int
  waitMax : Option Int
deriving DecidableEq

/-- The `(MaxRSS / 2**30) * ElapsedRaw` cell; null when either operand is
null (skipped by `.sum()`). -/
def gbCell (r : AllocRec) : Option ℚ :=
  match r.maxRSS, r.elapsedRaw with
  | some m, some e => some ((m : ℚ) / 2 ^ 30 * (e : ℚ))
  | _, _ => none

/-- The aggregation body shared by the per-QOS and the global `group_by`
of `compute_daily_metrics` (`src/app/daily_eff.py` lines 57-152):
`.sum()` ignores nulls and is 0 on an all-null series; `.mean()`,
`.median()`, `.min()`, `.max()` ignore nulls and are null on an all-null
series. -/
def qStats (g : List AllocRec) (cpuCap gbCap : Int) : QStats :=
  let tcs := ((g.map AllocRec.totalCPUSeconds).filterMap id).sum
  let gbs := ((g.map gbCell).filterMap id).sum
  let ws := (g.map waitTimeSeconds).filterMap id
  { cpuSeconds := tcs
    cpuHours := (tcs : ℚ) / 3600
    cpuPct := (tcs : ℚ) / (cpuCap : ℚ) * 100
    gbSeconds := gbs
    ramPct := gbs / (gbCap : ℚ) * 100
    waitMean := if ws.length = 0 then none else some ((ws.sum : ℚ) / (ws.length : ℚ))
    waitMedian := medianOf ws
    waitMin := ws.min?
    waitMax := ws.max? }

/-- The rows that ran on the target day: `filter(daily_duration_hours > 0)`
applied to the output of `generic_report`. -/
def dailyFiltered (rows : List RawRow) : List AllocRec :=
  (generic_report rows).filter fun r => 0 < dailyDurationOpt r.startTs r.endTs

/-- The distinct QOS labels of the filtered rows (the groups of
`group_by("QOS")`), in first-appearance order; polars guarantees no group
order, which claim C9 treats explicitly. -/
def qosKeys (rows : List RawRow) : List (Option String) :=
  dedupFirst ((dailyFiltered rows).map AllocRec.qos)

/-- The group of filtered rows with QOS label `k`. -/
def qosGroup (rows : List RawRow) (k : Option String) : List AllocRec :=
  (dailyFiltered rows).filter fun r => r.qos = k

/-- The per-QOS part of the summary dictionary, with the groups emitted in
the enumeration order `order`. -/
def dailyQosPart (order : List (Option String)) (rows : List RawRow)
    (cpuCap gbCap : Int) : List (Option String × QStats) :=
  order.map fun k => (k, qStats (qosGroup rows k) cpuCap gbCap)

/-- The summary mapping returned by `compute_daily_metrics`: the per-QOS
entries followed by the reserved `"global"` entry (the `group_by("date")`
of the single target date covers all filtered rows), merged with the
Python dict-merge semantics in which later entries override earlier
ones. -/
def compute_daily_metrics (order : List (Option String)) (rows : List RawRow)
    (cpuCap gbCap : Int) : List (Option String × QStats) :=
  dailyQosPart order rows cpuCap gbCap ++
    [(some "global", qStats (dailyFiltered rows) cpuCap gbCap)]

/-- Lookup in an insertion-ordered dictionary: later entries override
earlier ones, as in a Python dict built by successive insertion. -/
def dictGet {V : Type} (l : List (Option String × V)) (k : Option String) :
    Option V :=
  l.foldl (fun acc p => if p.1 = k then some p.2 else acc) none

/-- The two-row input stream used to witness `c9_pipeline_deterministic`:
two allocations with QOS labels `"a"` and `"b"`, both spanning the whole
target day. -/
def c9rows : List RawRow :=
  [⟨some "1", none, none, none, none, none, some "a", none,
    some (-43200), some 129600, some 0⟩,
   ⟨some "2", none, none, none, none, none, some "b", none,
    some (-43200), some 129600, some 0⟩]

/-- The input stream used to witness `c10_global_key_shadowed`: its first
allocation carries the QOS label `"global"`. -/
def c10rows : List RawRow :=
  [⟨some "1", none, none, none, none, none, some "global", none,
    some (-43200), some 129600, some 0⟩,
   ⟨some "2", none, none, none, none, none, some "b", none,
    some (-43200), some 129600, some 0⟩]

/-! ### Theorems -/

/-! ### Helper lemmas about the classifier and the size extractor -/

theorem digits_takeWhile_append (root : String) (c : Char) (t : List Char)
    (hr : isDigitStr root = true) (hc : c.isDigit = false) :
    (root.data ++ (c :: t)).takeWhile Char.isDigit = root.data ∧
      (root.data ++ (c :: t)).dropWhile Char.isDigit = c :: t := by
  have hall : ∀ x ∈ root.data, Char.isDigit x = true := by
    have h := hr
    unfold isDigitStr at h
    simp only [Bool.and_eq_true, List.all_eq_true] at h
    exact h.2
  constructor
  · rw [List.takeWhile_append_of_pos hall, List.takeWhile_cons_of_neg (by simp [hc])]
    simp
  · rw [List.dropWhile_append_of_pos hall, List.dropWhile_cons_of_neg (by simp [hc])]

theorem digits_nonempty (root : String) (hr : isDigitStr root = true) :
    root.data ≠ [] := by
  have h := hr
  unfold isDigitStr at h
  simp only [Bool.and_eq_true, Bool.not_eq_true', List.isEmpty_eq_false] at h
  exact h.1

/-- On a pure digit run the regex consumes everything and the suffix group
is null. -/
theorem jobRootSuffix_digits (root : String) (hr : isDigitStr root = true) :
    jobRootSuffix root = (some root, none) := by
  have hall : ∀ x ∈ root.data, Char.isDigit x = true := by
    have h := hr
    unfold isDigitStr at h
    simp only [Bool.and_eq_true, List.all_eq_true] at h
    exact h.2
  have htw : root.data.takeWhile Char.isDigit = root.data :=
    List.takeWhile_eq_self_iff.mpr hall
  have hdw : root.data.dropWhile Char.isDigit = [] :=
    List.dropWhile_eq_nil_iff.mpr fun x hx => by simp [hall x hx]
  unfold jobRootSuffix
  simp only [htw, hdw, List.isEmpty_eq_true]
  rw [if_neg (digits_nonempty root hr)]

/-- Behaviour of the extraction regex on a digit run followed by a
non-digit character. -/
theorem jobRootSuffix_append (root : String) (c : Char) (t : List Char)
    (hr : isDigitStr root = true) (hc : c.isDigit = false) :
    jobRootSuffix (root ++ String.mk (c :: t)) =
      (some root, if c = '.' ∧ t ≠ [] then some (String.mk (c :: t)) else none) := by
  obtain ⟨htw, hdw⟩ := digits_takeWhile_append root c t hr hc
  have hdata : (root ++ String.mk (c :: t)).data = root.data ++ (c :: t) := by
    simp
  unfold jobRootSuffix
  simp only [hdata, htw, hdw, List.isEmpty_eq_true]
  rw [if_neg (digits_nonempty root hr)]
  split <;> rfl

/-- C2 counterexample: the JobID `"abc"` does not match the pattern
`^(\d+)(\..+)?$`, yet the classifier assigns `record_kind = "allocation"`
(the null suffix falls into the first `when` branch), not `"unknown"` as
the claim states. -/
theorem c2_counterexample :
    matchesRootSuffix "abc" = false ∧ jobParent "abc" = none ∧
      jobKind "abc" = "allocation" ∧ jobKind "abc" ≠ "unknown" := by
  decide

/-- C2 (amended): a composite identifier that does not match
`^(\d+)(\..+)?$` is classified `record_kind = "allocation"` (never
`"unknown"`); its `parent_key` is null exactly when the identifier has no
leading digit, and otherwise is the leading digit run; and the row is
retained (`with_columns` preserves the number of rows). -/
theorem c2_malformed_id_amended (s : String) (h : matchesRootSuffix s = false) :
    jobKind s = "allocation"
      ∧ (jobParent s = none ↔ s.data.takeWhile Char.isDigit = [])
      ∧ ∀ rows : List String, (addJobCols rows).length = rows.length := by
  have key : (jobRootSuffix s).2 = none ∧
      ((jobRootSuffix s).1 = none ↔ s.data.takeWhile Char.isDigit = []) := by
    unfold matchesRootSuffix at h
    unfold jobRootSuffix
    rcases hds : (s.data.takeWhile Char.isDigit).isEmpty
    case true =>
      have he : s.data.takeWhile Char.isDigit = [] := by
        simpa using List.isEmpty_iff.mp hds
      simp [hds, he]
    case false =>
      simp only [hds, Bool.not_false, Bool.true_and] at h
      have hne : s.data.takeWhile Char.isDigit ≠ [] := by
        simpa using hds
      rcases hdw : s.data.dropWhile Char.isDigit with _ | ⟨c, tail⟩
      · rw [hdw] at h
        simp at h
      · rw [hdw] at h
        have hcond : ¬ (c = '.' ∧ tail ≠ []) := by
          rintro ⟨h1, h2⟩
          subst h1
          simp [h2] at h
        simp [hds, hdw, hcond, hne]
  refine ⟨?_, ?_, fun rows => by simp [addJobCols]⟩
  · show jobInfoTypeOf (jobRootSuffix s).2 = "allocation"
    rw [key.1]
    rfl
  · exact key.2

theorem dot_append_data (t : String) : ("." ++ t).data = '.' :: t.data := by
  cases t
  rfl

theorem dot_append_inj {a b : String} (h : ("." ++ a) = ("." ++ b)) : a = b := by
  have hd := congrArg String.data h
  rw [dot_append_data, dot_append_data] at hd
  cases a
  cases b
  exact congrArg String.mk (by simpa using hd)

theorem isStepSuffix_dot (t : String) : isStepSuffix ("." ++ t) = isDigitStr t := by
  cases t
  rfl

/-- The classifier on a digit root followed by a dot suffix `"." ++ t` with
`t` nonempty: the parent is the root and the suffix group captures the
whole `"." ++ t`. -/
theorem jobRootSuffix_dot (root t : String) (hr : isDigitStr root = true)
    (ht : t ≠ "") :
    jobRootSuffix (root ++ ("." ++ t)) = (some root, some ("." ++ t)) := by
  have htne : t.data ≠ [] := fun h0 => ht (congrArg String.mk h0)
  have harg : ("." ++ t) = String.mk ('.' :: t.data) := by
    cases t
    rfl
  rw [harg, jobRootSuffix_append root '.' t.data hr (by decide)]
  rw [if_pos ⟨rfl, htne⟩]

/-- C7: on a well-formed composite identifier (a digit run optionally
followed by one suffix) the classifier sets `parent_key` to the digit run
and assigns kind `allocation` (no suffix), `batch` (`.batch`), `extern`
(`.extern`), `step` (`.` followed by digits) or `unknown` (any other
suffix); in particular `"12345"`, `"12345.batch"`, `"12345.0"` and
`"12345.extern"` classify as stated. -/
theorem c7_classifier_wellformed (root ds sfx : String)
    (hr : isDigitStr root = true) (hds : isDigitStr ds = true)
    (hsb : sfx ≠ "batch") (hse : sfx ≠ "extern")
    (hs0 : sfx ≠ "") (hsd : isDigitStr sfx = false) :
    (jobParent root = some root ∧ jobKind root = "allocation")
  ∧ (jobParent (root ++ ".batch") = some root ∧ jobKind (root ++ ".batch") = "batch")
  ∧ (jobParent (root ++ ".extern") = some root ∧ jobKind (root ++ ".extern") = "extern")
  ∧ (jobParent (root ++ ("." ++ ds)) = some root ∧ jobKind (root ++ ("." ++ ds)) = "step")
  ∧ (jobParent (root ++ ("." ++ sfx)) = some root ∧ jobKind (root ++ ("." ++ sfx)) = "unknown")
  ∧ (jobParent "12345" = some "12345" ∧ jobKind "12345" = "allocation")
  ∧ (jobParent "12345.batch" = some "12345" ∧ jobKind "12345.batch" = "batch")
  ∧ (jobParent "12345.0" = some "12345" ∧ jobKind "12345.0" = "step")
  ∧ (jobParent "12345.extern" = some "12345" ∧ jobKind "12345.extern" = "extern") := by
  have hrs := jobRootSuffix_digits root hr
  have hbatch : (".batch" : String) = "." ++ "batch" := by decide
  have hext : (".extern" : String) = "." ++ "extern" := by decide
  have hdsne : ds ≠ "" := fun h0 => digits_nonempty ds hds (congrArg String.data h0)
  refine ⟨⟨?_, ?_⟩, ⟨?_, ?_⟩, ⟨?_, ?_⟩, ⟨?_, ?_⟩, ⟨?_, ?_⟩, by decide, by decide,
    by decide, by decide⟩
  · show (jobRootSuffix root).1 = some root
    rw [hrs]
  · show jobInfoTypeOf (jobRootSuffix root).2 = "allocation"
    rw [hrs]
    rfl
  · show (jobRootSuffix (root ++ ".batch")).1 = some root
    rw [hbatch, jobRootSuffix_dot root "batch" hr (by decide)]
  · show jobInfoTypeOf (jobRootSuffix (root ++ ".batch")).2 = "batch"
    rw [hbatch, jobRootSuffix_dot root "batch" hr (by decide)]
    exact (by decide : jobInfoTypeOf (some ("." ++ "batch")) = "batch")
  · show (jobRootSuffix (root ++ ".extern")).1 = some root
    rw [hext, jobRootSuffix_dot root "extern" hr (by decide)]
  · show jobInfoTypeOf (jobRootSuffix (root ++ ".extern")).2 = "extern"
    rw [hext, jobRootSuffix_dot root "extern" hr (by decide)]
    exact (by decide : jobInfoTypeOf (some ("." ++ "extern")) = "extern")
  · show (jobRootSuffix (root ++ ("." ++ ds))).1 = some root
    rw [jobRootSuffix_dot root ds hr hdsne]
  · show jobInfoTypeOf (jobRootSuffix (root ++ ("." ++ ds))).2 = "step"
    rw [jobRootSuffix_dot root ds hr hdsne]
    have h1 : ("." ++ ds) ≠ ".batch" := by
      rw [hbatch]
      intro hEq
      have := dot_append_inj hEq
      subst this
      exact absurd hds (by decide)
    have h2 : ("." ++ ds) ≠ ".extern" := by
      rw [hext]
      intro hEq
      have := dot_append_inj hEq
      subst this
      exact absurd hds (by decide)
    simp [jobInfoTypeOf, h1, h2, isStepSuffix_dot, hds]
  · show (jobRootSuffix (root ++ ("." ++ sfx))).1 = some root
    rw [jobRootSuffix_dot root sfx hr hs0]
  · show jobInfoTypeOf (jobRootSuffix (root ++ ("." ++ sfx))).2 = "unknown"
    rw [jobRootSuffix_dot root sfx hr hs0]
    have h1 : ("." ++ sfx) ≠ ".batch" := by
      rw [hbatch]
      intro hEq
      exact hsb (dot_append_inj hEq)
    have h2 : ("." ++ sfx) ≠ ".extern" := by
      rw [hext]
      intro hEq
      exact hse (dot_append_inj hEq)
    simp [jobInfoTypeOf, h1, h2, isStepSuffix_dot, hsd]

/-- Witness for `c7_classifier_wellformed` at root `"12345"`, step suffix
digits `"0"` and unknown suffix `"batchX"`. -/
theorem c7_classifier_wellformed_witness :
    (isDigitStr "12345" = true ∧ isDigitStr "0" = true ∧ "batchX" ≠ "batch" ∧
      "batchX" ≠ "extern" ∧ "batchX" ≠ "" ∧ isDigitStr "batchX" = false) ∧
      jobParent "12345" = some "12345" ∧ jobKind "12345" = "allocation" :=
  ⟨⟨by decide, by decide, by decide, by decide, by decide, by decide⟩,
    (c7_classifier_wellformed "12345" "0" "batchX" (by decide) (by decide)
      (by decide) (by decide) (by decide) (by decide)).1⟩

/-- Witness for `c2_malformed_id_amended` at the malformed identifier
`"abc"`. -/
theorem c2_malformed_id_amended_witness :
    matchesRootSuffix "abc" = false ∧ jobKind "abc" = "allocation" :=
  ⟨by decide, (c2_malformed_id_amended "abc" (by decide)).1⟩

/-- The unanchored search `\d+[<units>]` on a digit run followed by one of
the unit characters finds exactly that digit run and unit. -/
theorem kmgFindAux_digits_unit (units : List Char) (ds : String) (u : Char)
    (hds : isDigitStr ds = true) (hu : u.isDigit = false) (hmem : u ∈ units) :
    kmgFindAux units (ds.data ++ [u]) = some (ds.data, u) := by
  obtain ⟨htw, hdw⟩ := digits_takeWhile_append ds u [] hds hu
  rcases hd : ds.data with _ | ⟨c, rest⟩
  · exact absurd hd (digits_nonempty ds hds)
  · rw [hd] at htw hdw
    have hcd : c.isDigit = true := by
      have h := hds
      unfold isDigitStr at h
      simp only [Bool.and_eq_true, List.all_eq_true] at h
      exact h.2 c (by rw [hd]; exact List.mem_cons_self c rest)
    show kmgFindAux units (c :: (rest ++ [u])) = some (c :: rest, u)
    unfold kmgFindAux
    rw [if_pos hcd]
    have : (c :: (rest ++ [u])).dropWhile Char.isDigit = [u] := hdw
    rw [this]
    simp only [if_pos hmem]
    have : (c :: (rest ++ [u])).takeWhile Char.isDigit = c :: rest := htw
    rw [this]

/-- C3 counterexample: a `T`-suffixed size is not converted (`"1T"` yields
null, not `1024^4` bytes as the claim states), and a lowercase unit also
yields null in both implementations. -/
theorem c3_counterexample :
    parseSizeBytes (some "1T") = none ∧ parseSizeBytes (some "1k") = none ∧
      parseSizeBytesCI (some "1k") = none := by
  decide

/-- C3 (amended): the size parser converts `<digits>K`, `<digits>M` and
`<digits>G` (uppercase units only) to bytes with binary multipliers `1024`,
`1024^2`, `1024^3`; a `T`-suffixed size is extracted but converted to a
missing value; a lowercase unit yields missing even under the
case-insensitive extractor of `src/main.py`; a null cell and any string
without a `\d+[KMGT]` match yield missing — never zero. -/
theorem c3_size_parser_amended (ds : String) (hds : isDigitStr ds = true) :
    parseSizeBytes (some (ds ++ "K")) = some ((strVal ds : Int) * 1024)
  ∧ parseSizeBytes (some (ds ++ "M")) = some ((strVal ds : Int) * 1024 ^ 2)
  ∧ parseSizeBytes (some (ds ++ "G")) = some ((strVal ds : Int) * 1024 ^ 3)
  ∧ parseSizeBytes (some (ds ++ "T")) = none
  ∧ parseSizeBytesCI (some (ds ++ "m")) = none
  ∧ parseSizeBytes none = none
  ∧ (∀ s : String, kmgFindAux appUnits s.data = none → parseSizeBytes (some s) = none) := by
  have hdata : ∀ u : Char, (ds ++ String.mk [u]).data = ds.data ++ [u] := by
    intro u
    simp
  have happ : ∀ u : Char, u.isDigit = false → u ∈ appUnits →
      add_units_kmg (some (ds ++ String.mk [u])) = some (ds, u) := by
    intro u h1 h2
    show ((kmgFindAux appUnits (ds ++ String.mk [u]).data).map
      fun p => (String.mk p.1, p.2)) = some (ds, u)
    rw [hdata u, kmgFindAux_digits_unit appUnits ds u hds h1 h2]
    rfl
  have hci : add_units_kmg_ci (some (ds ++ String.mk ['m'])) = some (ds, 'm') := by
    show ((kmgFindAux ciUnits (ds ++ String.mk ['m']).data).map
      fun p => (String.mk p.1, p.2)) = some (ds, 'm')
    rw [hdata 'm', kmgFindAux_digits_unit ciUnits ds 'm' hds (by decide) (by decide)]
    rfl
  refine ⟨?_, ?_, ?_, ?_, ?_, rfl, ?_⟩
  · show convert_kmg_col (add_units_kmg (some (ds ++ "K"))) = _
    rw [show ("K" : String) = String.mk ['K'] from rfl,
      happ 'K' (by decide) (by decide)]
    rfl
  · show convert_kmg_col (add_units_kmg (some (ds ++ "M"))) = _
    rw [show ("M" : String) = String.mk ['M'] from rfl,
      happ 'M' (by decide) (by decide)]
    rfl
  · show convert_kmg_col (add_units_kmg (some (ds ++ "G"))) = _
    rw [show ("G" : String) = String.mk ['G'] from rfl,
      happ 'G' (by decide) (by decide)]
    rfl
  · show convert_kmg_col (add_units_kmg (some (ds ++ "T"))) = _
    rw [show ("T" : String) = String.mk ['T'] from rfl,
      happ 'T' (by decide) (by decide)]
    rfl
  · show convert_kmg_col (add_units_kmg_ci (some (ds ++ "m"))) = _
    rw [show ("m" : String) = String.mk ['m'] from rfl, hci]
    rfl
  · intro s hnone
    show convert_kmg_col (add_units_kmg (some s)) = none
    show convert_kmg_col ((kmgFindAux appUnits s.data).map fun p => (String.mk p.1, p.2)) = none
    rw [hnone]
    rfl

/-- Witness for `c3_size_parser_amended` at the digit run `"512"`. -/
theorem c3_size_parser_amended_witness :
    isDigitStr "512" = true ∧ parseSizeBytes (some ("512" ++ "T")) = none :=
  ⟨by decide, (c3_size_parser_amended "512" (by decide)).2.2.2.1⟩

/-- C8: the size parser maps `"512M"` to `536870912` bytes, `"2G"` to
`2147483648` bytes and `"10X"` to a missing value. -/
theorem c8_size_parser_examples :
    parseSizeBytes (some "512M") = some 536870912
      ∧ parseSizeBytes (some "2G") = some 2147483648
      ∧ parseSizeBytes (some "10X") = none := by
  decide

theorem splitOnChar_ne_nil (sep : Char) (l : List Char) : splitOnChar sep l ≠ [] := by
  induction l with
  | nil => simp [splitOnChar]
  | cons c rest ih =>
    show consSplit sep c (splitOnChar sep rest) ≠ []
    rcases hr : splitOnChar sep rest with _ | ⟨h2, t2⟩
    · exact absurd hr ih
    · by_cases hc : c = sep <;> simp [consSplit, hc]

theorem splitOnChar_not_mem (sep : Char) (l : List Char) (h : sep ∉ l) :
    splitOnChar sep l = [l] := by
  induction l with
  | nil => rfl
  | cons c rest ih =>
    have hne : c ≠ sep := fun he => h (he ▸ List.mem_cons_self c rest)
    have hr : sep ∉ rest := fun hm => h (List.mem_cons_of_mem c hm)
    show consSplit sep c (splitOnChar sep rest) = [c :: rest]
    rw [ih hr]
    simp [consSplit, hne]

theorem splitOnChar_sep_append (sep : Char) (l1 l2 : List Char) (h : sep ∉ l1) :
    splitOnChar sep (l1 ++ sep :: l2) = l1 :: splitOnChar sep l2 := by
  induction l1 with
  | nil =>
    show consSplit sep sep (splitOnChar sep l2) = [] :: splitOnChar sep l2
    rcases hr : splitOnChar sep l2 with _ | ⟨h2, t2⟩
    · exact absurd hr (splitOnChar_ne_nil sep l2)
    · simp [consSplit]
  | cons c r ih =>
    have hc : c ≠ sep := fun he => h (he ▸ List.mem_cons_self c r)
    have hr : sep ∉ r := fun hm => h (List.mem_cons_of_mem c hm)
    show consSplit sep c (splitOnChar sep (r ++ sep :: l2)) = (c :: r) :: splitOnChar sep l2
    rw [ih hr]
    simp [consSplit, hc]

theorem not_mem_of_digits (s : String) (hs : isDigitStr s = true) (c : Char)
    (hc : c.isDigit = false) : c ∉ s.data := by
  intro hm
  have h := hs
  unfold isDigitStr at h
  simp only [Bool.and_eq_true, List.all_eq_true] at h
  simp [h.2 c hm] at hc

/-- C5 counterexample: the `parse_total_cpu_col` of
`src/app/usage-report.py` maps the unrecognized input `"garbage"` to `0`
seconds (its `otherwise` branch is a struct of zeros), not to a missing
value as the claim states; a null cell is also turned into `0`. -/
theorem c5_counterexample :
    parseTotalCpuUR (some "garbage") = 0 ∧ parseTotalCpuUR none = 0 := by
  decide

/-- C5 (amended): both duration parsers return
`days*86400 + hours*3600 + minutes*60 + seconds` on the three recognized
shapes, truncating the fractional seconds of `MM:SS.fff`; for any other
input the `src/app/main.py` parser returns a missing value while the
`src/app/usage-report.py` parser returns `0`.  In particular
`"1-02:03:04"` gives 93784, `"02:03:04"` gives 7384, `"03:04.5"` gives
184 and `"garbage"` gives missing in `src/app/main.py`. -/
theorem c5_duration_parser_amended (s : String) (d h m sec : Nat) :
    (dhmsOf s = some (d, h, m, sec) →
      parseDurationMain (some s) =
          some ((d : Int) * 86400 + (h : Int) * 3600 + (m : Int) * 60 + (sec : Int))
        ∧ parseTotalCpuUR (some s) =
          (d : Int) * 86400 + (h : Int) * 3600 + (m : Int) * 60 + (sec : Int))
  ∧ (dhmsOf s = none → hmsOf s = some (h, m, sec) →
      parseDurationMain (some s) = some ((h : Int) * 3600 + (m : Int) * 60 + (sec : Int))
        ∧ parseTotalCpuUR (some s) = (h : Int) * 3600 + (m : Int) * 60 + (sec : Int))
  ∧ (∀ mm ss ff : String, isDigitStr mm = true → isDigitStr ss = true →
      isDigitStr ff = true →
      parseDurationMain (some (mm ++ ":" ++ ss ++ "." ++ ff)) =
        some ((strVal mm : Int) * 60 + (strVal ss : Int)))
  ∧ (dhmsOf s = none → hmsOf s = none → msFracOf s = none →
      parseDurationMain (some s) = none ∧ parseTotalCpuUR (some s) = 0)
  ∧ parseDurationMain none = none
  ∧ parseDurationMain (some "1-02:03:04") = some 93784
  ∧ parseDurationMain (some "02:03:04") = some 7384
  ∧ parseDurationMain (some "03:04.5") = some 184
  ∧ parseDurationMain (some "garbage") = none
  ∧ parseTotalCpuUR (some "1-02:03:04") = 93784 := by
  refine ⟨?_, ?_, ?_, ?_, by decide, by decide, by decide, by decide, by decide,
    by decide⟩
  · intro h1
    constructor
    · simp only [parseDurationMain, h1]
    · simp only [parseTotalCpuUR, h1]
  · intro h1 h2
    constructor
    · simp only [parseDurationMain, h1, h2]
    · simp only [parseTotalCpuUR, h1, h2]
  · intro mm ss ff hmm hss hff
    have hmmc : (':' : Char) ∉ mm.data := not_mem_of_digits mm hmm ':' (by decide)
    have hssc : (':' : Char) ∉ ss.data := not_mem_of_digits ss hss ':' (by decide)
    have hffc : (':' : Char) ∉ ff.data := not_mem_of_digits ff hff ':' (by decide)
    have hssd : ('.' : Char) ∉ ss.data := not_mem_of_digits ss hss '.' (by decide)
    have hffd : ('.' : Char) ∉ ff.data := not_mem_of_digits ff hff '.' (by decide)
    have hmmm : ('-' : Char) ∉ mm.data := not_mem_of_digits mm hmm '-' (by decide)
    have hssm : ('-' : Char) ∉ ss.data := not_mem_of_digits ss hss '-' (by decide)
    have hffm : ('-' : Char) ∉ ff.data := not_mem_of_digits ff hff '-' (by decide)
    have hdata : (mm ++ ":" ++ ss ++ "." ++ ff).data =
        mm.data ++ ':' :: (ss.data ++ '.' :: ff.data) := by
      simp
    have hrest : (':' : Char) ∉ ss.data ++ '.' :: ff.data := by
      intro hmem
      rcases List.mem_append.mp hmem with hA | hB
      · exact hssc hA
      · rcases List.mem_cons.mp hB with hE | hC
        · exact absurd hE (by decide)
        · exact hffc hC
    have hsplit1 : splitOnChar ':' (mm ++ ":" ++ ss ++ "." ++ ff).data =
        [mm.data, ss.data ++ '.' :: ff.data] := by
      rw [hdata, splitOnChar_sep_append ':' mm.data _ hmmc,
        splitOnChar_not_mem ':' _ hrest]
    have hsplit2 : splitOnChar '.' (ss.data ++ '.' :: ff.data) =
        [ss.data, ff.data] := by
      rw [splitOnChar_sep_append '.' ss.data _ hssd,
        splitOnChar_not_mem '.' _ hffd]
    have hnomatch : ('-' : Char) ∉ (mm ++ ":" ++ ss ++ "." ++ ff).data := by
      rw [hdata]
      intro hmem
      rcases List.mem_append.mp hmem with hA | hB
      · exact hmmm hA
      · rcases List.mem_cons.mp hB with hE | hC
        · exact absurd hE (by decide)
        · rcases List.mem_append.mp hC with hD | hF
          · exact hssm hD
          · rcases List.mem_cons.mp hF with hG | hH
            · exact absurd hG (by decide)
            · exact hffm hH
    have hdh : dhmsOf (mm ++ ":" ++ ss ++ "." ++ ff) = none := by
      simp only [dhmsOf, splitOnChar_not_mem '-' _ hnomatch]
    have hhms : hmsOf (mm ++ ":" ++ ss ++ "." ++ ff) = none := by
      simp only [hmsOf, hsplit1]
    have hmsf : msFracOf (mm ++ ":" ++ ss ++ "." ++ ff) =
        some (strVal mm, strVal ss) := by
      have h1 : digitRunL mm.data = true := hmm
      have h2 : digitRunL ss.data = true := hss
      have h3 : digitRunL ff.data = true := hff
      simp only [msFracOf, hsplit1, hsplit2, h1, h2, h3, Bool.and_self, if_pos]
      rfl
    simp only [parseDurationMain, hdh, hhms, hmsf]
  · intro h1 h2 h3
    constructor
    · simp only [parseDurationMain, h1, h2, h3]
    · simp only [parseTotalCpuUR, h1, h2, h3]

/-- Witness for `c5_duration_parser_amended` at `"1-02:03:04"`. -/
theorem c5_duration_parser_amended_witness :
    dhmsOf "1-02:03:04" = some (1, 2, 3, 4) ∧
      parseDurationMain (some "1-02:03:04") = some ((1 : Int) * 86400 +
        (2 : Int) * 3600 + (3 : Int) * 60 + (4 : Int)) :=
  ⟨by decide,
    ((c5_duration_parser_amended "1-02:03:04" 1 2 3 4).1 (by decide)).1⟩

/-- C1 counterexample: with a zero denominator the efficiency columns are
not missing — `TotalCPU_seconds = 0`, `ElapsedRaw = 0`, `AllocCPUS = 1`
gives `CPUEfficiencyPercent = 0.0` (the NaN from `0/0` is filled with 0),
a positive numerator over a zero denominator gives infinity, and a
memory request parsing to `0` bytes gives infinity or NaN. -/
theorem c1_counterexample :
    cpuEfficiencyPercent (some 0) (some 0) (some 1) = some (PFloat.val 0)
  ∧ cpuEfficiencyPercent (some 0) (some 0) (some 1) ≠ none
  ∧ cpuEfficiencyPercent (some 1) (some 0) (some 1) = some PFloat.inf
  ∧ memEfficiencyPercent (parseSizeBytes (some "1K")) (parseSizeBytes (some "0G")) =
      some PFloat.inf
  ∧ memEfficiencyPercent (some 0) (some 0) = some PFloat.nan := by
  have hsz1 : parseSizeBytes (some "1K") = some 1024 := by decide
  have hsz0 : parseSizeBytes (some "0G") = some 0 := by decide
  refine ⟨?_, ?_, ?_, ?_, ?_⟩
  · simp [cpuEfficiencyPercent, intTrueDiv, intMulOpt, fillNanZero, pfMul100]
  · simp [cpuEfficiencyPercent, intTrueDiv, intMulOpt, fillNanZero, pfMul100]
  · simp [cpuEfficiencyPercent, intTrueDiv, intMulOpt, fillNanZero, pfMul100]
  · rw [hsz1, hsz0]
    simp [memEfficiencyPercent, intTrueDiv, pfMul100]
  · simp [memEfficiencyPercent, intTrueDiv, pfMul100]

/-- C1 (amended): a missing operand propagates to a missing efficiency
value, but a zero denominator does not: memory efficiency becomes
infinity (positive numerator), negative infinity (negative numerator) or
NaN (`0/0`), and CPU efficiency becomes infinity, negative infinity or —
through `fill_nan(0)` — exactly `0.0` for `0/0`; with a nonzero
denominator the result is the finite percentage `100 * a / b`. -/
theorem c1_efficiency_amended (a b tc e c : Option Int) :
    (a = none ∨ b = none → memEfficiencyPercent a b = none)
  ∧ (tc = none ∨ e = none ∨ c = none → cpuEfficiencyPercent tc e c = none)
  ∧ (∀ x : Int, a = some x → b = some 0 →
      memEfficiencyPercent a b =
        if x > 0 then some PFloat.inf
        else if x < 0 then some PFloat.ninf
        else some PFloat.nan)
  ∧ (∀ x y z : Int, tc = some x → e = some y → c = some z → y * z = 0 →
      cpuEfficiencyPercent tc e c =
        if x > 0 then some PFloat.inf
        else if x < 0 then some PFloat.ninf
        else some (PFloat.val 0))
  ∧ (∀ x y : Int, a = some x → b = some y → y ≠ 0 →
      memEfficiencyPercent a b = some (PFloat.val (100 * ((x : ℚ) / (y : ℚ))))) := by
  refine ⟨?_, ?_, ?_, ?_, ?_⟩
  · rintro (rfl | rfl)
    · rfl
    · cases a <;> rfl
  · rintro (rfl | rfl | rfl)
    · rfl
    · cases tc <;> rfl
    · cases tc <;> cases e <;> rfl
  · rintro x rfl rfl
    unfold memEfficiencyPercent intTrueDiv
    by_cases hx : x > 0
    · simp [hx, pfMul100]
    · by_cases hx2 : x < 0 <;> simp [hx, hx2, pfMul100]
  · rintro x y z rfl rfl rfl hyz
    simp only [cpuEfficiencyPercent, intMulOpt]
    rw [hyz]
    simp only [intTrueDiv]
    by_cases hx : x > 0
    · simp [hx, pfMul100, fillNanZero]
    · by_cases hx2 : x < 0 <;> simp [hx, hx2, pfMul100, fillNanZero]
  · rintro x y rfl rfl hy
    unfold memEfficiencyPercent intTrueDiv
    simp [hy, pfMul100]

/-- Witness for `c1_efficiency_amended`: a missing `ReqMem` operand gives
a missing memory efficiency. -/
theorem c1_efficiency_amended_witness :
    ((none : Option Int) = none ∨ (none : Option Int) = none) ∧
      memEfficiencyPercent (some 5) none = none :=
  ⟨Or.inr rfl,
    (c1_efficiency_amended (some 5) none none none none).1 (Or.inr rfl)⟩

/-- C4: the six documented scenarios for target date 2026-02-24 (day
offset 0; 2026-02-23 is offset -1, 2026-02-25 is offset 1, 2026-02-22 is
offset -2): 10:00-14:00 same day gives 4.0h; 22:00 previous day to 02:00
gives 2.0h; 20:00 to 04:00 next day gives 4.0h; noon previous day to noon
next day gives 24.0h; a job entirely on 2026-02-22 gives 0.0h; and
midnight to midnight next day gives 24.0h. -/
theorem c4_daily_overlap_examples :
    dailyDurationHours (tsec 0 10 0 0) (tsec 0 14 0 0) = 4
  ∧ dailyDurationHours (tsec (-1) 22 0 0) (tsec 0 2 0 0) = 2
  ∧ dailyDurationHours (tsec 0 20 0 0) (tsec 1 4 0 0) = 4
  ∧ dailyDurationHours (tsec (-1) 12 0 0) (tsec 1 12 0 0) = 24
  ∧ dailyDurationHours (tsec (-2) 10 0 0) (tsec (-2) 14 0 0) = 0
  ∧ dailyDurationHours (tsec 0 0 0 0) (tsec 1 0 0 0) = 24 := by
  refine ⟨?_, ?_, ?_, ?_, ?_, ?_⟩
  · show dailyDurationHours 36000 50400 = 4
    unfold dailyDurationHours
    rw [show dayOf 36000 = 0 from by decide, show dayOf 50400 = 0 from by decide]
    norm_num
  · show dailyDurationHours (-7200) 7200 = 2
    unfold dailyDurationHours
    rw [show dayOf (-7200) = -1 from by decide, show dayOf 7200 = 0 from by decide]
    norm_num
  · show dailyDurationHours 72000 100800 = 4
    unfold dailyDurationHours
    rw [show dayOf 72000 = 0 from by decide, show dayOf 100800 = 1 from by decide]
    norm_num
  · show dailyDurationHours (-43200) 129600 = 24
    unfold dailyDurationHours
    rw [show dayOf (-43200) = -1 from by decide, show dayOf 129600 = 1 from by decide]
    norm_num
  · show dailyDurationHours (-136800) (-122400) = 0
    unfold dailyDurationHours
    rw [show dayOf (-136800) = -2 from by decide, show dayOf (-122400) = -2 from by decide]
    norm_num
  · show dailyDurationHours 0 86400 = 24
    unfold dailyDurationHours
    rw [show dayOf 0 = 0 from by decide, show dayOf 86400 = 1 from by decide]
    norm_num

theorem mem_dedupFirstAux {K : Type} [DecidableEq K] (l : List K) :
    ∀ (seen : List K) (k : K), k ∈ dedupFirstAux seen l ↔ k ∈ l ∧ k ∉ seen := by
  induction l with
  | nil => intro seen k; simp [dedupFirstAux]
  | cons a rest ih =>
    intro seen k
    by_cases ha : a ∈ seen
    · rw [show dedupFirstAux seen (a :: rest) = dedupFirstAux seen rest from by
        rw [dedupFirstAux, if_pos ha], ih seen k]
      constructor
      · rintro ⟨h1, h2⟩
        exact ⟨List.mem_cons_of_mem a h1, h2⟩
      · rintro ⟨h1, h2⟩
        rcases List.mem_cons.mp h1 with rfl | h3
        · exact absurd ha h2
        · exact ⟨h3, h2⟩
    · rw [show dedupFirstAux seen (a :: rest) = a :: dedupFirstAux (a :: seen) rest from by
        rw [dedupFirstAux, if_neg ha]]
      by_cases hk : k = a
      · subst hk
        simp [ha]
      · simp only [List.mem_cons, hk, false_or, ih (a :: seen) k]

theorem nodup_dedupFirstAux {K : Type} [DecidableEq K] (l : List K) :
    ∀ seen : List K, (dedupFirstAux seen l).Nodup := by
  induction l with
  | nil => intro seen; simp [dedupFirstAux]
  | cons a rest ih =>
    intro seen
    by_cases ha : a ∈ seen
    · rw [show dedupFirstAux seen (a :: rest) = dedupFirstAux seen rest from by
        rw [dedupFirstAux, if_pos ha]]
      exact ih seen
    · rw [show dedupFirstAux seen (a :: rest) = a :: dedupFirstAux (a :: seen) rest from by
        rw [dedupFirstAux, if_neg ha]]
      refine List.nodup_cons.mpr ⟨?_, ih (a :: seen)⟩
      intro hmem
      exact ((mem_dedupFirstAux rest (a :: seen) a).mp hmem).2 (List.mem_cons_self a seen)

/-- C6: the allocation aggregator emits exactly one record per distinct
parent key (the output keys are pairwise distinct and are exactly the keys
occurring in the input); each numeric field is the maximum over the
non-missing values of the group and is missing if every constituent is missing; each
text field is the first non-missing value in input order and is missing if
every constituent is missing; and the `{8G, null}` requested-memory group
reduces to the parsed byte value of `8G` in either row order. -/
theorem c6_allocation_aggregator (rows : List SRow) :
    ((aggregate_per_alloc rows).map Prod.fst).Nodup
  ∧ (∀ k, k ∈ (aggregate_per_alloc rows).map Prod.fst ↔ k ∈ rows.map SRow.jobRoot)
  ∧ (∀ k mv av, (k, mv, av) ∈ aggregate_per_alloc rows →
      mv = aggIntMax ((rowsFor rows k).map SRow.reqMem)
      ∧ av = aggStrFirst ((rowsFor rows k).map SRow.account)
      ∧ (∀ v : Int, mv = some v →
          some v ∈ (rowsFor rows k).map SRow.reqMem
          ∧ ∀ w : Int, some w ∈ (rowsFor rows k).map SRow.reqMem → w ≤ v)
      ∧ ((∀ r ∈ rowsFor rows k, r.reqMem = none) → mv = none)
      ∧ (∀ v : String, av = some v → some v ∈ (rowsFor rows k).map SRow.account)
      ∧ ((∀ r ∈ rowsFor rows k, r.account = none) → av = none))
  ∧ aggregate_per_alloc sampleRows8G = [(some "7", some 8589934592, some "acct")]
  ∧ aggregate_per_alloc sampleRows8GRev = [(some "7", some 8589934592, some "acct")] := by
  have hmap : (aggregate_per_alloc rows).map Prod.fst =
      dedupFirst (rows.map SRow.jobRoot) := by
    unfold aggregate_per_alloc
    rw [List.map_map]
    exact List.map_id _
  refine ⟨?_, ?_, ?_, by decide, by decide⟩
  · rw [hmap]
    exact nodup_dedupFirstAux _ []
  · intro k
    rw [hmap]
    unfold dedupFirst
    rw [mem_dedupFirstAux]
    simp
  · intro k mv av hmem
    unfold aggregate_per_alloc at hmem
    rcases List.mem_map.mp hmem with ⟨k2, hk2, heq⟩
    simp only [Prod.mk.injEq] at heq
    obtain ⟨rfl, rfl, rfl⟩ := heq
    refine ⟨rfl, rfl, ?_, ?_, ?_, ?_⟩
    · intro v hv
      unfold aggIntMax at hv
      constructor
      · have hm := List.max?_mem (fun a b => max_choice a b) hv
        rcases List.mem_filterMap.mp hm with ⟨a, ha, hid⟩
        rw [show a = some v from hid] at ha
        exact ha
      · intro w hw
        exact (List.max?_le_iff (fun a b c => max_le_iff) hv (x := v)).mp (le_refl v) w
          (List.mem_filterMap.mpr ⟨some w, hw, rfl⟩)
    · intro hall
      unfold aggIntMax
      rw [show ((rowsFor rows k2).map SRow.reqMem).filterMap id = [] from by
        rw [List.filterMap_eq_nil_iff]
        intro a ha
        rcases List.mem_map.mp ha with ⟨r, hr, hra⟩
        rw [← hra, hall r hr]
        rfl]
      rfl
    · intro v hv
      unfold aggStrFirst at hv
      rcases List.exists_of_findSome?_eq_some hv with ⟨a, ha, hid⟩
      rw [show a = some v from hid] at ha
      exact ha
    · intro hall
      unfold aggStrFirst
      rw [List.findSome?_eq_none_iff]
      intro x hx
      rcases List.mem_map.mp hx with ⟨r, hr, hrx⟩
      rw [← hrx, hall r hr]
      rfl

/-- Witness for `c6_allocation_aggregator`: the unique output record of
the `{8G, null}` group carries the maximum of the non-missing
requested-memory values. -/
theorem c6_allocation_aggregator_witness :
    ((some "7", some (8589934592 : Int), some "acct") ∈ aggregate_per_alloc sampleRows8G)
      ∧ some (8589934592 : Int) =
        aggIntMax ((rowsFor sampleRows8G (some "7")).map SRow.reqMem) :=
  ⟨by decide,
    ((c6_allocation_aggregator sampleRows8G).2.2.1 (some "7")
      (some 8589934592) (some "acct") (by decide)).1⟩

theorem dictGet_keyed {V : Type} (f : Option String → V) (k : Option String) :
    ∀ (o : List (Option String)) (acc : Option V),
      (o.map fun q => (q, f q)).foldl
          (fun acc p => if p.1 = k then some p.2 else acc) acc =
        if k ∈ o then some (f k) else acc := by
  intro o
  induction o with
  | nil => intro acc; simp
  | cons a rest ih =>
    intro acc
    simp only [List.map_cons, List.foldl_cons]
    rw [ih]
    by_cases hm : k ∈ rest
    · simp [hm]
    · by_cases ha : a = k
      · subst ha
        simp [hm]
      · have hka : ¬ k = a := fun h => ha h.symm
        simp [hm, ha, hka]

/-- Evaluation of the merged summary dictionary: the reserved `"global"`
key always resolves to the all-rows summary because its entry is written
last; every other key resolves to its per-QOS summary when it is among
the enumerated groups. -/
theorem dictGet_dailySummary (order : List (Option String)) (rows : List RawRow)
    (cpuCap gbCap : Int) (k : Option String) :
    dictGet (compute_daily_metrics order rows cpuCap gbCap) k =
      if k = some "global" then some (qStats (dailyFiltered rows) cpuCap gbCap)
      else if k ∈ order then some (qStats (qosGroup rows k) cpuCap gbCap)
      else none := by
  unfold dictGet compute_daily_metrics dailyQosPart
  rw [List.foldl_append]
  simp only [List.foldl_cons, List.foldl_nil]
  by_cases hg : k = some "global"
  · simp [hg, dictGet_keyed]
  · have hgs : ¬ (some "global" = k) := fun h => hg h.symm
    simp only [hgs, if_neg, if_false, hg]
    exact dictGet_keyed (fun q => qStats (qosGroup rows q) cpuCap gbCap) k order none

/-- C9: the pipeline is deterministic.  The summary mapping produced by
`compute_daily_metrics` depends only on the input stream: any two runs,
whose only freedom is the order in which `group_by` enumerates the
distinct QOS groups, produce identical Summary Records for every key —
every grouped statistic included. -/
theorem c9_pipeline_deterministic (rows : List RawRow) (cpuCap gbCap : Int)
    (o1 o2 : List (Option String))
    (h1 : o1.Perm (qosKeys rows)) (h2 : o2.Perm (qosKeys rows)) :
    ∀ k, dictGet (compute_daily_metrics o1 rows cpuCap gbCap) k =
      dictGet (compute_daily_metrics o2 rows cpuCap gbCap) k := by
  intro k
  rw [dictGet_dailySummary, dictGet_dailySummary]
  by_cases hg : k = some "global"
  · simp [hg]
  · simp only [hg, if_false]
    have hmem : k ∈ o1 ↔ k ∈ o2 := by
      rw [h1.mem_iff, h2.mem_iff]
    by_cases h : k ∈ o1
    · rw [if_pos h, if_pos (hmem.mp h)]
    · rw [if_neg h, if_neg fun hh => h (hmem.mpr hh)]

/-- Witness for `c9_pipeline_deterministic`: the two group enumeration
orders `[a, b]` and `[b, a]` give the same summary for the key `"a"`. -/
theorem c9_pipeline_deterministic_witness :
    ([some "a", some "b"] : List (Option String)).Perm (qosKeys c9rows)
  ∧ ([some "b", some "a"] : List (Option String)).Perm (qosKeys c9rows)
  ∧ dictGet (compute_daily_metrics [some "a", some "b"] c9rows 1000 1000) (some "a") =
      dictGet (compute_daily_metrics [some "b", some "a"] c9rows 1000 1000) (some "a") :=
  ⟨by decide, by decide,
    c9_pipeline_deterministic c9rows 1000 1000 [some "a", some "b"]
      [some "b", some "a"] (by decide) (by decide) (some "a")⟩

/-- C10: the reserved `"global"` entry is merged after the per-QOS
entries, so for an input stream containing the QOS label `"global"` the
output holds the all-groups global summary under that key — the per-QOS
summary for the label `"global"` is not in the output mapping, every
other label keeps its per-QOS summary. -/
theorem c10_global_key_shadowed (rows : List RawRow) (cpuCap gbCap : Int)
    (order : List (Option String)) (hglob : some "global" ∈ qosKeys rows) :
    dictGet (compute_daily_metrics order rows cpuCap gbCap) (some "global") =
      some (qStats (dailyFiltered rows) cpuCap gbCap)
  ∧ ∀ q, q ≠ some "global" →
      dictGet (compute_daily_metrics order rows cpuCap gbCap) q =
        dictGet (dailyQosPart order rows cpuCap gbCap) q := by
  constructor
  · rw [dictGet_dailySummary]
    simp
  · intro q hq
    rw [dictGet_dailySummary]
    simp only [hq, if_false]
    exact (dictGet_keyed (fun k => qStats (qosGroup rows k) cpuCap gbCap) q order none).symm

/-- Witness for `c10_global_key_shadowed` on a stream containing the QOS
label `"global"`. -/
theorem c10_global_key_shadowed_witness :
    some "global" ∈ qosKeys c10rows
  ∧ dictGet (compute_daily_metrics [some "global", some "b"] c10rows 1000 1000) (some "global") =
      some (qStats (dailyFiltered c10rows) 1000 1000) :=
  ⟨by decide,
    (c10_global_key_shadowed c10rows 1000 1000 [some "global", some "b"]
      (by decide)).1⟩

end SlurmReport
